import Mathlib

/-!
Verification of the MVT attribute-lister core (decode-aggregate-export
pipeline) against its natural-language specification.

The JavaScript sources under `docs/` are shallowly embedded here:

* `analyzeLayerAttributes`, `analyzeTile`, `getValueType` from
  `docs/mvt-parser.mjs`;
* `generateCSV`, `escapeCsvValue`, `generateMarkdown`, `escapeMarkdown`,
  `formatSampleValues` from `docs/exporter.mjs` (the escaping-complete
  revision, which the spec designates as canonical);
* `fetchTile` from `docs/mvt-parser.mjs`.

JavaScript-specific semantics that the source relies on are modelled
explicitly: `String(value)` stringification, `Set` / `Map` insertion order,
the stable `Array.prototype.sort`, and the object property enumeration
order of `Object.entries` / `Object.values` / `Object.keys` (array-index
keys first, in ascending numeric order, then string keys in insertion
order).
-/

namespace Mvtal

/-- Decimal digits of a natural number, fuel-indexed so that the kernel can
evaluate it.  `natDigitsAux (n+1) n` is the digit list of `n`. -/
def natDigitsAux : Nat → Nat → List Char
  | 0, _ => []
  | fuel + 1, n =>
    if n < 10 then [Nat.digitChar n]
    else natDigitsAux fuel (n / 10) ++ [Nat.digitChar (n % 10)]

/-- JavaScript `String(n)` for a non-negative integer-valued number. -/
def jsNatRepr (n : Nat) : String := ⟨natDigitsAux (n + 1) n⟩

/-- JavaScript `String(n)` for an integer-valued number. -/
def jsIntRepr : Int → String
  | .ofNat m => jsNatRepr m
  | .negSucc m => "-" ++ jsNatRepr (m + 1)

/-- The dynamic property values produced by the decoder: the four canonical
variants plus the `unknown` fallback of `getValueType`.  Numbers are
restricted to integer values (the usual MVT case), so that their
JavaScript stringification is the plain decimal text. -/
inductive Value where
  | vNull
  | vBool (b : Bool)
  | vNum (n : Int)
  | vStr (s : String)
  | vUnknown
deriving DecidableEq, Repr

/-- `getValueType` from `docs/mvt-parser.mjs`: null check first, then
`typeof` dispatch, with `unknown` as the fallthrough. -/
def getValueType : Value → String
  | .vNull => "null"
  | .vBool _ => "boolean"
  | .vNum _ => "number"
  | .vStr _ => "string"
  | .vUnknown => "unknown"

/-- JavaScript `String(value)` as used to key the histogram `Map`. -/
def jsString : Value → String
  | .vNull => "null"
  | .vBool true => "true"
  | .vBool false => "false"
  | .vNum n => jsIntRepr n
  | .vStr s => s
  | .vUnknown => "[object Object]"

/-- A decoded feature: its `properties` object, as an insertion-ordered
association list.  JavaScript objects have unique keys; theorems that need
this uniqueness assume it explicitly (`WFLayer`). -/
structure Feature where
  props : List (String × Value)
deriving DecidableEq, Repr

/-- A decoded layer (`VectorTileLayer`): name, `version`, `extent` and the
features in wire order (`layer.length` / `layer.feature(i)`). -/
structure Layer where
  name : String
  version : Nat
  extent : Nat
  features : List Feature
deriving DecidableEq, Repr

/-- A parsed tile: `tile.layers`, an object keyed by layer name, modelled
as the insertion-ordered list of layers. -/
structure Tile where
  layers : List Layer
deriving DecidableEq, Repr

/-- One histogram entry `{ value, count }` of an attribute analysis. -/
structure HistEntry where
  value : String
  count : Nat
deriving DecidableEq, Repr

/-- One element of the array returned by `analyzeLayerAttributes`:
`{ key, types, count, values }`. -/
structure AttributeStat where
  key : String
  types : List String
  count : Nat
  values : List HistEntry
deriving DecidableEq, Repr

/-- The per-key accumulator object `attributes[key]` built by the loop in
`analyzeLayerAttributes`: `types` is a JS `Set` (insertion-ordered,
duplicate-free) and `values` a JS `Map` from value string to count
(insertion-ordered, unique keys). -/
structure AttrAcc where
  key : String
  types : List String
  count : Nat
  values : List (String × Nat)
deriving DecidableEq, Repr

/-- JS `Set.add` followed by `Array.from`: append if absent. -/
def pushNew (acc : List String) (x : String) : List String :=
  if x ∈ acc then acc else acc ++ [x]

/-- Fold `pushNew` over a list: the first-observed-order deduplication of
`l`, continuing from `init`. -/
def pushNews (init : List String) (l : List String) : List String :=
  l.foldl pushNew init

/-- JS `map.set(s, (map.get(s) || 0) + 1)`: bump the existing entry in
place, or append a fresh entry with count 1. -/
def mapIncr (m : List (String × Nat)) (s : String) : List (String × Nat) :=
  match m with
  | [] => [(s, 1)]
  | e :: rest => if e.1 = s then (e.1, e.2 + 1) :: rest else e :: mapIncr rest s

/-- The body of the inner loop of `analyzeLayerAttributes` for one
`(key, value)` pair: create the accumulator entry if absent, then bump
`count`, add the type tag to the `types` set and bump the histogram bucket
of `String(value)`. -/
def addProp (acc : List AttrAcc) (k : String) (v : Value) : List AttrAcc :=
  match acc with
  | [] => [⟨k, [getValueType v], 1, [(jsString v, 1)]⟩]
  | a :: rest =>
    if a.key = k then
      ⟨a.key, pushNew a.types (getValueType v), a.count + 1,
        mapIncr a.values (jsString v)⟩ :: rest
    else
      a :: addProp rest k v

/-- Run the accumulation loop over a flat list of `(key, value)` pairs. -/
def accPairs (ps : List (String × Value)) : List AttrAcc :=
  ps.foldl (fun acc p => addProp acc p.1 p.2) []

/-- Numeric value of a digit string. -/
def digitsVal (l : List Char) : Nat :=
  l.foldl (fun n c => n * 10 + (c.toNat - 48)) 0

/-- Whether a character is a decimal digit. -/
def isDigitChar (c : Char) : Bool :=
  48 ≤ c.toNat && c.toNat ≤ 57

/-- JavaScript array-index property keys: the canonical decimal text of an
integer `0 ≤ n < 2^32 - 1` (no leading zeros).  Such keys are enumerated
by `Object.keys` / `Object.values` / `Object.entries` before all other
string keys, in ascending numeric order. -/
def canonIndex (s : String) : Option Nat :=
  match s.data with
  | [] => none
  | c :: cs =>
    if (c :: cs).all isDigitChar && (!(c == '0') || cs.isEmpty) then
      if digitsVal (c :: cs) < 4294967295 then some (digitsVal (c :: cs)) else none
    else none

/-- Stable descending insertion by a numeric key: an element is placed
before the first element whose key is not larger, so that ties keep the
original relative order.  This is the unique result mandated for the
stable `Array.prototype.sort` with comparator `(a, b) => f b - f a`. -/
def insertDescBy (f : α → Nat) (x : α) : List α → List α
  | [] => [x]
  | y :: ys => if f y ≤ f x then x :: y :: ys else y :: insertDescBy f x ys

/-- Stable sort, descending by a numeric key. -/
def sortDescBy (f : α → Nat) : List α → List α
  | [] => []
  | x :: xs => insertDescBy f x (sortDescBy f xs)

/-- Stable ascending insertion by a numeric key. -/
def insertAscBy (f : α → Nat) (x : α) : List α → List α
  | [] => [x]
  | y :: ys => if f x < f y then x :: y :: ys else y :: insertAscBy f x ys

/-- Stable sort, ascending by a numeric key. -/
def sortAscBy (f : α → Nat) : List α → List α
  | [] => []
  | x :: xs => insertAscBy f x (sortAscBy f xs)

/-- JavaScript object property enumeration order over an
insertion-ordered entry list: array-index keys first, ascending
numerically, then the remaining keys in insertion order. -/
def objectOrderBy (f : α → String) (l : List α) : List α :=
  sortAscBy (fun a => (canonIndex (f a)).getD 0)
      (l.filter (fun a => (canonIndex (f a)).isSome))
    ++ l.filter (fun a => !(canonIndex (f a)).isSome)

/-- `Object.entries(feature.properties)`: the property pairs in JS
enumeration order. -/
def featEntries (f : Feature) : List (String × Value) :=
  objectOrderBy Prod.fst f.props

/-- All `(key, value)` pairs seen by the aggregation loop, across the
layer's features in wire order. -/
def layerPairs (l : Layer) : List (String × Value) :=
  l.features.flatMap featEntries

/-- The `.map` step of `analyzeLayerAttributes`: freeze the `types` set
into an array and sort the histogram entries by count descending (stable,
so ties keep `Map` insertion order). -/
def finalizeAcc (a : AttrAcc) : AttributeStat :=
  ⟨a.key, a.types, a.count,
    (sortDescBy (fun e => e.2) a.values).map (fun e => ⟨e.1, e.2⟩)⟩

/-- `analyzeLayerAttributes` from `docs/mvt-parser.mjs`: accumulate over
all features, take `Object.values` of the accumulator object, map each
entry to its result record, and sort by total count descending (stable). -/
def analyzeLayerAttributes (layer : Layer) : List AttributeStat :=
  sortDescBy (fun a => a.count)
    ((objectOrderBy (fun a => a.key) (accPairs (layerPairs layer))).map finalizeAcc)

/-- One entry of the `analyzeTile` result object:
`{ name, featureCount, extent, version, attributes }`. -/
structure LayerAnalysis where
  name : String
  featureCount : Nat
  extent : Nat
  version : Nat
  attributes : List AttributeStat
deriving DecidableEq, Repr

/-- The per-layer record built inside the `analyzeTile` loop. -/
def mkLayerAnalysis (l : Layer) : LayerAnalysis :=
  ⟨l.name, l.features.length, l.extent, l.version, analyzeLayerAttributes l⟩

/-- `analyzeTile` from `docs/mvt-parser.mjs`: iterate
`Object.keys(tile.layers)` and build the ordered name-to-analysis map. -/
def analyzeTile (t : Tile) : List (String × LayerAnalysis) :=
  (objectOrderBy (fun l => l.name) t.layers).map (fun l => (l.name, mkLayerAnalysis l))

/-- The property names of `Object.prototype`.  The accumulator in
`analyzeLayerAttributes` is a plain object, and its existence check
`!attributes[key]` consults the prototype chain: for these keys the
lookup yields the truthy inherited member even when no own entry
exists. -/
def protoKeys : List String :=
  ["__proto__", "constructor", "hasOwnProperty", "isPrototypeOf",
   "propertyIsEnumerable", "toLocaleString", "toString", "valueOf",
   "__defineGetter__", "__defineSetter__", "__lookupGetter__",
   "__lookupSetter__"]

/-- A thrown JavaScript `TypeError`.  Its message text is
engine-dependent, so only the error kind is modelled. -/
inductive JsTypeError where
  | typeError
deriving DecidableEq, Repr

/-- The inner-loop body of `analyzeLayerAttributes` with the
prototype-chain semantics of `!attributes[key]` included: an own entry
is updated in place; a missing entry whose key is not an
`Object.prototype` property name is created; but for a key inherited
from `Object.prototype` the check sees the truthy inherited member, so
creation is skipped, `attr.count++` writes onto the shared prototype
member (a global, not the layer), and `attr.types.add(...)` throws a
`TypeError`.  `addProp` is this function restricted to the
non-throwing paths. -/
def addPropJs (acc : List AttrAcc) (k : String) (v : Value) :
    Except JsTypeError (List AttrAcc) :=
  match acc with
  | [] =>
    if k ∈ protoKeys then .error .typeError
    else .ok [⟨k, [getValueType v], 1, [(jsString v, 1)]⟩]
  | a :: rest =>
    if a.key = k then
      .ok (⟨a.key, pushNew a.types (getValueType v), a.count + 1,
        mapIncr a.values (jsString v)⟩ :: rest)
    else
      match addPropJs rest k v with
      | .ok rest2 => .ok (a :: rest2)
      | .error e => .error e

/-- The accumulation loop with the thrown `TypeError` propagated. -/
def accPairsJsAux : List (String × Value) → List AttrAcc → Except JsTypeError (List AttrAcc)
  | [], acc => .ok acc
  | p :: rest, acc =>
    match addPropJs acc p.1 p.2 with
    | .ok acc2 => accPairsJsAux rest acc2
    | .error e => .error e

/-- Run the throwing accumulation loop over a flat pair list. -/
def accPairsJs (ps : List (String × Value)) : Except JsTypeError (List AttrAcc) :=
  accPairsJsAux ps []

/-- `analyzeLayerAttributes` with its `TypeError` path: the function
either throws (when an observed property key is an `Object.prototype`
property name) or returns the sorted analysis. -/
def analyzeLayerAttributesJs (layer : Layer) : Except JsTypeError (List AttributeStat) :=
  match accPairsJs (layerPairs layer) with
  | .error e => .error e
  | .ok attributes =>
    .ok (sortDescBy (fun a => a.count)
      ((objectOrderBy (fun a => a.key) attributes).map finalizeAcc))

/-- `analyzeLayerAttributesJs` with the input threaded through
explicitly: the function never assigns to the layer or its features
(on the throwing path it writes only onto the shared
`Object.prototype` member), so the embedding returns the layer
unchanged alongside the outcome. -/
def analyzeLayerObserveJs (l : Layer) : Except JsTypeError (List AttributeStat) × Layer :=
  (analyzeLayerAttributesJs l, l)

/-- `analyzeTile` with the input tile threaded through explicitly: the
code only reads the tile, so the embedding returns it unchanged. -/
def analyzeTileObserve (t : Tile) : List (String × LayerAnalysis) × Tile :=
  (analyzeTile t, t)

/-- Character-level embedding of `value.replace(/"/g, '""')`. -/
def replaceQuoteChars : List Char → List Char
  | [] => []
  | c :: cs =>
    if c = '"' then '"' :: '"' :: replaceQuoteChars cs
    else c :: replaceQuoteChars cs

/-- `escapeCsvValue` from `docs/exporter.mjs`: double the embedded double
quotes, then wrap in double quotes. -/
def escapeCsvValue (s : String) : String :=
  "\"" ++ ⟨replaceQuoteChars s.data⟩ ++ "\""

/-- Modelled from the spec: RFC-4180-style quoting, "every field is
individually enclosed in double quotes with embedded double quotes
doubled; embedded newlines are preserved verbatim inside the quotes".
Each embedded `"` expands to `""`; every other character, newlines
included, is kept verbatim. -/
def csvFieldChars : List Char → List Char
  | [] => []
  | c :: cs => (if c = '"' then ['"', '"'] else [c]) ++ csvFieldChars cs

/-- The spec's quoted-CSV-field transformation (see `csvFieldChars`). -/
def csvFieldSpec (s : String) : String :=
  "\"" ++ ⟨csvFieldChars s.data⟩ ++ "\""

/-- The data row `generateCSV` emits for one attribute: quoted key, quoted
joined types, the bare count, and the quoted top-10 sample values. -/
def csvRow (attr : AttributeStat) : String :=
  escapeCsvValue attr.key ++ "," ++
  escapeCsvValue (String.intercalate ";" attr.types) ++ "," ++
  jsNatRepr attr.count ++ "," ++
  escapeCsvValue (String.intercalate ";" ((attr.values.take 10).map (fun v => v.value)))

/-- `generateCSV` from `docs/exporter.mjs` (escaping-complete revision):
header line then one `csvRow` per attribute, joined by newlines.  The
`layerName` parameter is accepted and ignored, exactly as in the source. -/
def generateCSV (layerName : String) (layerInfo : LayerAnalysis) : String :=
  String.intercalate "\n"
    ("key,types,count,sample_values" :: layerInfo.attributes.map csvRow)

/-- Character-level embedding of `value.replace(/\|/g, '\\|')`. -/
def replacePipeChars : List Char → List Char
  | [] => []
  | c :: cs =>
    if c = '|' then '\\' :: '|' :: replacePipeChars cs
    else c :: replacePipeChars cs

/-- Character-level embedding of `value.replace(/\n/g, ' ')`. -/
def replaceNlChars : List Char → List Char
  | [] => []
  | c :: cs =>
    if c = '\n' then ' ' :: replaceNlChars cs
    else c :: replaceNlChars cs

/-- `escapeMarkdown` from `docs/exporter.mjs`: escape pipes, then collapse
newlines to spaces. -/
def escapeMarkdown (s : String) : String :=
  ⟨replaceNlChars (replacePipeChars s.data)⟩

/-- Modelled from the spec: "every table-cell value has literal `|`
replaced with `\|` and embedded newlines collapsed to a single space",
as a single pass over the characters. -/
def mdCellChars : List Char → List Char
  | [] => []
  | c :: cs =>
    (if c = '|' then ['\\', '|'] else if c = '\n' then [' '] else [c]) ++ mdCellChars cs

/-- The spec's Markdown table-cell transformation (see `mdCellChars`). -/
def mdCellSpec (s : String) : String :=
  ⟨mdCellChars s.data⟩

/-- `formatSampleValues` from `docs/exporter.mjs`: the displayed
histogram prefix rendered as comma-joined `value (count)` pairs. -/
def formatSampleValues (values : List HistEntry) (limit : Nat) (showAll : Bool) : String :=
  String.intercalate ", "
    ((if showAll then values else values.take limit).map
      (fun v => v.value ++ " (" ++ jsNatRepr v.count ++ ")"))

/-- The Markdown table row `generateMarkdown` emits for one attribute. -/
def mdRow (attr : AttributeStat) (sampleLimit : Nat) (showAll : Bool) : String :=
  "| " ++ escapeMarkdown attr.key ++ " | " ++
  escapeMarkdown (String.intercalate ", " attr.types) ++ " | " ++
  jsNatRepr attr.count ++ " | " ++
  escapeMarkdown (formatSampleValues attr.values sampleLimit showAll) ++ " |\n"

/-- `generateMarkdown` from `docs/exporter.mjs` (escaping-complete
revision): H1 heading, metadata bullets, `Attributes` table. -/
def generateMarkdown (layerName : String) (layerInfo : LayerAnalysis)
    (sampleLimit : Nat) (showAll : Bool) : String :=
  "# Layer: " ++ escapeMarkdown layerName ++ "\n\n" ++
  "- **Features**: " ++ jsNatRepr layerInfo.featureCount ++ "\n" ++
  "- **Version**: " ++ jsNatRepr layerInfo.version ++ "\n" ++
  "- **Extent**: " ++ jsNatRepr layerInfo.extent ++ "\n\n" ++
  "## Attributes\n\n" ++
  "| Key | Types | Count | Sample Values |\n" ++
  "|-----|-------|-------|---------------|\n" ++
  String.join (layerInfo.attributes.map (fun attr => mdRow attr sampleLimit showAll))

/-- Values thrown by the fetch step.  `jsError` is a plain
`new Error(message)` — it carries nothing but its message string.
`httpErrorStructured` is modelled from the spec
(`HttpError{status, statusText}`) for comparison; the code never
constructs it. -/
inductive JsThrown where
  | jsError (message : String)
  | httpErrorStructured (status : Nat) (statusText : String)
deriving DecidableEq, Repr

/-- The outcome of the browser `fetch(url)` call: either the promise
rejects (network failure — DNS, reset, timeout) with some thrown value,
or it resolves to a response. -/
inductive NetOutcome where
  | netError (e : JsThrown)
  | netResponse (status : Nat) (statusText : String) (body : List Nat)
deriving DecidableEq, Repr

/-- `Response.ok`: status in the inclusive range 200–299. -/
def respOk (status : Nat) : Bool :=
  200 ≤ status && status < 300

/-- `fetchTile` from `docs/mvt-parser.mjs` over the modelled network
outcome: a rejected fetch propagates unchanged (the code has no catch);
a non-ok response raises `new Error` with the status interpolated into
the message; an ok response yields the body bytes. -/
def fetchTile (net : NetOutcome) : Except JsThrown (List Nat) :=
  match net with
  | .netError e => .error e
  | .netResponse status statusText body =>
    if respOk status then .ok body
    else .error (.jsError ("HTTP error: " ++ jsNatRepr status ++ " " ++ statusText))

/-- Whether a fetch result is the spec's structured `HttpError`. -/
def isStructuredHttpError : Except JsThrown (List Nat) → Bool
  | .error (.httpErrorStructured _ _) => true
  | _ => false

/-- Split a character list at every occurrence of `c` (used to take a CSV
line apart at concrete inputs). -/
def splitOnCharAux (c : Char) : List Char → List Char → List (List Char)
  | [], cur => [cur.reverse]
  | x :: xs, cur =>
    if x = c then cur.reverse :: splitOnCharAux c xs []
    else splitOnCharAux c xs (x :: cur)

/-- Split a string at every occurrence of a character. -/
def splitOnChar (c : Char) (s : String) : List String :=
  (splitOnCharAux c s.data []).map (fun l => ⟨l⟩)

/-- Well-formedness of a decoded layer: each feature's `properties` is a
JavaScript object, so its keys are unique. -/
abbrev WFLayer (l : Layer) : Prop :=
  ∀ f ∈ l.features, (f.props.map (fun p => p.1)).Nodup

/-- The strings of the values carried by key `k`, in observation order. -/
def keyStrsOf (ps : List (String × Value)) (k : String) : List String :=
  ps.filterMap (fun p => if p.1 = k then some (jsString p.2) else none)

/-- The type tags of the values carried by key `k`, in observation order. -/
def keyTypesOf (ps : List (String × Value)) (k : String) : List String :=
  ps.filterMap (fun p => if p.1 = k then some (getValueType p.2) else none)

/-- Occurrences of key `k` in a pair list. -/
def keyOccOf (ps : List (String × Value)) (k : String) : Nat :=
  ps.countP (fun p => p.1 == k)

/-- Occurrences of the string `s` in a string list. -/
def strCountOf (l : List String) (s : String) : Nat :=
  l.countP (fun x => x == s)

/-- The histogram `Map` built by folding `mapIncr` over a string list. -/
def histOf (l : List String) : List (String × Nat) :=
  l.foldl mapIncr []

/-- `map.get(s) || 0` on an association list. -/
def lookupCount (m : List (String × Nat)) (s : String) : Nat :=
  match m.find? (fun e => e.1 == s) with
  | some e => e.2
  | none => 0

/-- The first accumulator entry with key `k` (`attributes[k]`). -/
def lookupAcc (acc : List AttrAcc) (k : String) : Option AttrAcc :=
  acc.find? (fun a => a.key == k)

/-- The accumulator entry that the loop produces for key `k`, expressed
directly in terms of the observation sequence. -/
def mkEntry (ps : List (String × Value)) (k : String) : AttrAcc :=
  ⟨k, pushNews [] (keyTypesOf ps k), (keyStrsOf ps k).length,
    histOf (keyStrsOf ps k)⟩

/-- The layer's attribute keys in first-observed order. -/
def firstObservedKeys (layer : Layer) : List String :=
  pushNews [] ((layerPairs layer).map (fun p => p.1))

/-- How many `(key, value)` observations the layer contributes for `k`. -/
def keyOccurrences (layer : Layer) (k : String) : Nat :=
  keyOccOf (layerPairs layer) k

/-- The distinct value strings observed under key `k`, in first-observed
order. -/
def firstObservedStrs (layer : Layer) (k : String) : List String :=
  pushNews [] (keyStrsOf (layerPairs layer) k)

/-- How many observations under key `k` stringify to `s`. -/
def strOccurrences (layer : Layer) (k s : String) : Nat :=
  strCountOf (keyStrsOf (layerPairs layer) k) s

/-- The spec's worked example: layer `roads` with three features carrying
`type = "primary"`, `"primary"`, `"secondary"`. -/
def roadsLayer : Layer :=
  ⟨"roads", 1, 4096,
    [⟨[("type", .vStr "primary")]⟩,
     ⟨[("type", .vStr "primary")]⟩,
     ⟨[("type", .vStr "secondary")]⟩]⟩

/-- The attribute record that the analysis yields for `roads`. -/
def roadsStat : AttributeStat :=
  ⟨"type", ["string"], 3, [⟨"primary", 2⟩, ⟨"secondary", 1⟩]⟩

/-- The layer analysis for `roads`, as `analyzeTile` would record it. -/
def roadsAnalysis : LayerAnalysis :=
  ⟨"roads", 3, 4096, 1, [roadsStat]⟩

/-- A layer whose second feature introduces the array-index-like key `"1"`
after the key `"b"`: both keys end with total count 1 (a tie), but the
accumulator object enumerates `"1"` first. -/
def idxKeyLayer : Layer :=
  ⟨"t", 1, 4096,
    [⟨[("b", .vStr "x")]⟩,
     ⟨[("1", .vStr "y")]⟩]⟩

/-- A layer in which `flag` carries boolean `true` in one feature and the
string `"true"` in another: both stringify to `"true"`. -/
def mergeLayer : Layer :=
  ⟨"t", 1, 4096,
    [⟨[("flag", .vBool true)]⟩,
     ⟨[("flag", .vStr "true")]⟩]⟩

/-- The attribute record produced for `mergeLayer`: one shared bucket,
both type tags. -/
def mergeStat : AttributeStat :=
  ⟨"flag", ["boolean", "string"], 2, [⟨"true", 2⟩]⟩

/-- A layer whose single feature carries the property key `"toString"`,
which collides with `Object.prototype.toString`. -/
def protoLayer : Layer :=
  ⟨"p", 1, 4096, [⟨[("toString", .vStr "x")]⟩]⟩

/-- An empty layer. -/
def emptyLayer : Layer := ⟨"empty", 1, 4096, []⟩

/-- An empty tile. -/
def emptyTile : Tile := ⟨[]⟩

/-- A concrete 404 response. -/
def resp404 : NetOutcome := .netResponse 404 "Not Found" []

deriving instance DecidableEq for Except

lemma mem_natDigitsAux {fuel n : Nat} {c : Char}
    (h : c ∈ natDigitsAux fuel n) : 48 ≤ c.toNat ∧ c.toNat ≤ 57 := by
  induction fuel generalizing n with
  | zero => simp [natDigitsAux] at h
  | succ fuel ih =>
    rw [natDigitsAux] at h
    have hd : ∀ m, m < 10 → 48 ≤ (Nat.digitChar m).toNat ∧ (Nat.digitChar m).toNat ≤ 57 := by
      decide
    by_cases h10 : n < 10
    · rw [if_pos h10, List.mem_singleton] at h
      subst h
      exact hd n h10
    · rw [if_neg h10, List.mem_append] at h
      rcases h with h | h
      · exact ih h
      · rw [List.mem_singleton] at h
        subst h
        exact hd _ (Nat.mod_lt _ (by omega))

lemma mem_jsNatRepr {n : Nat} {c : Char} (h : c ∈ (jsNatRepr n).data) :
    48 ≤ c.toNat ∧ c.toNat ≤ 57 :=
  mem_natDigitsAux h

lemma replacePipeChars_eq_self {l : List Char} (h : ∀ c ∈ l, c ≠ '|') :
    replacePipeChars l = l := by
  induction l with
  | nil => rfl
  | cons c cs ih =>
    have hc : ¬(c = '|') := h c (List.mem_cons_self c cs)
    simp only [replacePipeChars, if_neg hc]
    rw [ih (fun x hx => h x (List.mem_cons_of_mem c hx))]

lemma replaceNlChars_eq_self {l : List Char} (h : ∀ c ∈ l, c ≠ '\n') :
    replaceNlChars l = l := by
  induction l with
  | nil => rfl
  | cons c cs ih =>
    have hc : ¬(c = '\n') := h c (List.mem_cons_self c cs)
    simp only [replaceNlChars, if_neg hc]
    rw [ih (fun x hx => h x (List.mem_cons_of_mem c hx))]

lemma replace_md_eq_mdCellChars (l : List Char) :
    replaceNlChars (replacePipeChars l) = mdCellChars l := by
  induction l with
  | nil => rfl
  | cons c cs ih =>
    by_cases hp : c = '|'
    · subst hp
      simp only [replacePipeChars, if_pos rfl, mdCellChars, if_pos rfl]
      show replaceNlChars ('\\' :: '|' :: replacePipeChars cs) = _
      rw [replaceNlChars, if_neg (by decide)]
      rw [replaceNlChars, if_neg (by decide)]
      rw [ih]
      rfl
    · by_cases hn : c = '\n'
      · subst hn
        simp only [replacePipeChars, if_neg hp, mdCellChars, if_neg hp, if_pos rfl]
        rw [replaceNlChars, if_pos rfl, ih]
        rfl
      · simp only [replacePipeChars, if_neg hp, mdCellChars, if_neg hp, if_neg hn]
        rw [replaceNlChars, if_neg hn, ih]
        rfl

lemma escapeMarkdown_eq_mdCellSpec (s : String) : escapeMarkdown s = mdCellSpec s :=
  congrArg String.mk (replace_md_eq_mdCellChars s.data)

lemma escapeMarkdown_jsNatRepr (n : Nat) : escapeMarkdown (jsNatRepr n) = jsNatRepr n := by
  have hpipe : ∀ c ∈ (jsNatRepr n).data, c ≠ '|' := by
    intro c hc he
    have hb := mem_jsNatRepr hc
    rw [he] at hb
    exact absurd hb (by decide)
  have hnl : ∀ c ∈ (jsNatRepr n).data, c ≠ '\n' := by
    intro c hc he
    have hb := mem_jsNatRepr hc
    rw [he] at hb
    exact absurd hb (by decide)
  show String.mk (replaceNlChars (replacePipeChars (jsNatRepr n).data)) = jsNatRepr n
  rw [replacePipeChars_eq_self hpipe, replaceNlChars_eq_self hnl]

lemma mdCellSpec_jsNatRepr (n : Nat) : mdCellSpec (jsNatRepr n) = jsNatRepr n := by
  rw [← escapeMarkdown_eq_mdCellSpec, escapeMarkdown_jsNatRepr]

lemma replaceQuote_eq_csvFieldChars (l : List Char) :
    replaceQuoteChars l = csvFieldChars l := by
  induction l with
  | nil => rfl
  | cons c cs ih =>
    by_cases hq : c = '"'
    · subst hq
      simp only [replaceQuoteChars, if_pos rfl, csvFieldChars, if_pos rfl, ih]
      rfl
    · simp only [replaceQuoteChars, if_neg hq, csvFieldChars, if_neg hq, ih]
      rfl

lemma escapeCsvValue_eq_csvFieldSpec (s : String) : escapeCsvValue s = csvFieldSpec s := by
  unfold escapeCsvValue csvFieldSpec
  rw [replaceQuote_eq_csvFieldChars]

lemma csvFieldChars_count_nl (l : List Char) :
    (csvFieldChars l).count '\n' = l.count '\n' := by
  induction l with
  | nil => rfl
  | cons c cs ih =>
    by_cases hq : c = '"'
    · subst hq
      show ('"' :: ('"' :: csvFieldChars cs)).count '\n' = ('"' :: cs).count '\n'
      rw [List.count_cons, List.count_cons, List.count_cons, ih]
      rfl
    · simp only [csvFieldChars, if_neg hq, List.singleton_append]
      rw [List.count_cons, List.count_cons, ih]

/-- C4: for every layer analysis and every choice of `sampleLimit` and
`showAll`, the text returned by `generateMarkdown` carries every
table-cell value (key, types, count, sample values — and the heading's
layer name) through the spec's cell transformation: each literal `|`
replaced by `\|` and each embedded newline collapsed to a single space.
For the count cell the transformation is the identity, since decimal
digits contain neither character. -/
theorem C4_markdown_cells_escaped (layerName : String) (layerInfo : LayerAnalysis)
    (sampleLimit : Nat) (showAll : Bool) :
    generateMarkdown layerName layerInfo sampleLimit showAll =
      "# Layer: " ++ mdCellSpec layerName ++ "\n\n" ++
      "- **Features**: " ++ jsNatRepr layerInfo.featureCount ++ "\n" ++
      "- **Version**: " ++ jsNatRepr layerInfo.version ++ "\n" ++
      "- **Extent**: " ++ jsNatRepr layerInfo.extent ++ "\n\n" ++
      "## Attributes\n\n" ++
      "| Key | Types | Count | Sample Values |\n" ++
      "|-----|-------|-------|---------------|\n" ++
      String.join (layerInfo.attributes.map (fun attr =>
        "| " ++ mdCellSpec attr.key ++ " | " ++
        mdCellSpec (String.intercalate ", " attr.types) ++ " | " ++
        mdCellSpec (jsNatRepr attr.count) ++ " | " ++
        mdCellSpec (formatSampleValues attr.values sampleLimit showAll) ++ " |\n")) := by
  simp only [generateMarkdown, mdRow, escapeMarkdown_eq_mdCellSpec, mdCellSpec_jsNatRepr]

/-- C3 (amended): in the text returned by `generateCSV`, the key, types
and sample_values fields of every row are individually enclosed in double
quotes with embedded double quotes doubled and newlines preserved
verbatim (the spec's RFC-4180-style quoting), but the count field is
emitted bare, as an unquoted decimal number. -/
theorem C3_csv_quoting (layerName : String) (layerInfo : LayerAnalysis) :
    (generateCSV layerName layerInfo =
      String.intercalate "\n" ("key,types,count,sample_values" ::
        layerInfo.attributes.map (fun attr =>
          csvFieldSpec attr.key ++ "," ++
          csvFieldSpec (String.intercalate ";" attr.types) ++ "," ++
          jsNatRepr attr.count ++ "," ++
          csvFieldSpec (String.intercalate ";"
            ((attr.values.take 10).map (fun v => v.value)))))) ∧
    (∀ s : String, (csvFieldSpec s).data.count '\n' = s.data.count '\n') := by
  constructor
  · have hrow : csvRow = (fun attr : AttributeStat =>
        csvFieldSpec attr.key ++ "," ++
        csvFieldSpec (String.intercalate ";" attr.types) ++ "," ++
        jsNatRepr attr.count ++ "," ++
        csvFieldSpec (String.intercalate ";"
          ((attr.values.take 10).map (fun v => v.value)))) := by
      funext attr
      simp only [csvRow, escapeCsvValue_eq_csvFieldSpec]
    unfold generateCSV
    rw [hrow]
  · intro s
    have h1 : (csvFieldSpec s).data = ('"' :: csvFieldChars s.data) ++ ['"'] := rfl
    rw [h1, List.count_append, List.count_cons, csvFieldChars_count_nl]
    rfl

/-- C3 counterexample: on the spec's own `roads` example the emitted data
row is `"type","string",3,"primary;secondary"` — its third
comma-separated field is the bare text `3`, which does not begin with a
double quote, so not every field is enclosed in double quotes. -/
theorem C3_count_field_not_quoted :
    generateCSV "roads" roadsAnalysis =
      "key,types,count,sample_values\n\"type\",\"string\",3,\"primary;secondary\"" ∧
    (splitOnChar '\n' (generateCSV "roads" roadsAnalysis)).map (splitOnChar ',') =
      [["key", "types", "count", "sample_values"],
       ["\"type\"", "\"string\"", "3", "\"primary;secondary\""]] ∧
    "3".data.head? ≠ some '"' :=
  ⟨by decide, by decide, by decide⟩

/-- C10: the text returned by `generateCSV` does not depend on the layer
name argument — any two names yield byte-identical output for the same
layer analysis. -/
theorem C10_generateCSV_ignores_layer_name (n1 n2 : String) (L : LayerAnalysis) :
    generateCSV n1 L = generateCSV n2 L := rfl

lemma addPropJs_ok (acc : List AttrAcc) (k : String) (v : Value)
    (hk : ¬(k ∈ protoKeys)) :
    addPropJs acc k v = Except.ok (addProp acc k v) := by
  induction acc with
  | nil =>
    simp only [addPropJs, addProp]
    rw [if_neg hk]
  | cons a rest ih =>
    simp only [addPropJs, addProp]
    by_cases h : a.key = k
    · rw [if_pos h, if_pos h]
    · rw [if_neg h, if_neg h, ih]

lemma accPairsJsAux_ok (ps : List (String × Value)) : ∀ (acc : List AttrAcc),
    (∀ p ∈ ps, ¬(p.1 ∈ protoKeys)) →
    accPairsJsAux ps acc =
      Except.ok (ps.foldl (fun acc p => addProp acc p.1 p.2) acc) := by
  induction ps with
  | nil => intro acc _; rfl
  | cons p rest ih =>
    intro acc h
    simp only [accPairsJsAux]
    rw [addPropJs_ok acc p.1 p.2 (h p (List.mem_cons_self p rest))]
    exact ih _ (fun q hq => h q (List.mem_cons_of_mem p hq))

lemma analyzeLayerAttributesJs_ok (layer : Layer)
    (h : ∀ p ∈ layerPairs layer, ¬(p.1 ∈ protoKeys)) :
    analyzeLayerAttributesJs layer = Except.ok (analyzeLayerAttributes layer) := by
  unfold analyzeLayerAttributesJs
  have hacc : accPairsJs (layerPairs layer) =
      Except.ok (accPairs (layerPairs layer)) := accPairsJsAux_ok _ [] h
  rw [hacc]
  rfl

/-- C5 (amended): provided no observed property key is an
`Object.prototype` property name, `analyzeLayerAttributes` returns
successfully and is deterministic and idempotent as an observation:
the run completes with the analysis, a second run on the layer
returned by the first produces identical ordered output, and the layer
comes back unchanged.  Without the proviso the function throws a
`TypeError` instead of returning output (see the counterexample). -/
theorem C5_analyze_deterministic_idempotent (l : Layer)
    (h : ∀ p ∈ layerPairs l, ¬(p.1 ∈ protoKeys)) :
    analyzeLayerAttributesJs l = Except.ok (analyzeLayerAttributes l) ∧
    (analyzeLayerObserveJs ((analyzeLayerObserveJs l).2)).1 =
      (analyzeLayerObserveJs l).1 ∧
    (analyzeLayerObserveJs l).2 = l :=
  ⟨analyzeLayerAttributesJs_ok l h, rfl, rfl⟩

/-- C5 witness: the `roads` example has no prototype-colliding keys and
analyzes successfully. -/
theorem C5_analyze_deterministic_idempotent_witness :
    (∀ p ∈ layerPairs roadsLayer, ¬(p.1 ∈ protoKeys)) ∧
    analyzeLayerAttributesJs roadsLayer =
      Except.ok (analyzeLayerAttributes roadsLayer) :=
  ⟨by decide, (C5_analyze_deterministic_idempotent roadsLayer (by decide)).1⟩

/-- C5 counterexample: on a layer whose feature carries the property key
`"toString"`, the accumulator existence check `!attributes["toString"]`
sees the truthy inherited `Object.prototype.toString`, skips creation,
and the loop throws a `TypeError` at `attr.types.add` — the function
returns no output at all, on either run. -/
theorem C5_proto_key_throws :
    analyzeLayerAttributesJs protoLayer = Except.error JsTypeError.typeError ∧
    (analyzeLayerAttributesJs protoLayer).isOk = false :=
  ⟨by decide, by decide⟩

/-- C9: producing a `TileAnalysis` is a pure function of the decoded
tile — the observation-threading embedding returns the tile (with all its
layers and features) unchanged alongside the analysis. -/
theorem C9_analyzeTile_pure (t : Tile) :
    (analyzeTileObserve t).2 = t ∧ (analyzeTileObserve t).1 = analyzeTile t :=
  ⟨rfl, rfl⟩

/-- C8: a layer with zero features yields `featureCount = 0` and an empty
attribute list, and a tile with zero layers yields an empty analysis. -/
theorem C8_empty_boundaries (l : Layer) (t : Tile) :
    (l.features = [] →
      (mkLayerAnalysis l).featureCount = 0 ∧
      (mkLayerAnalysis l).attributes = [] ∧
      analyzeLayerAttributes l = []) ∧
    (t.layers = [] → analyzeTile t = []) := by
  constructor
  · intro h
    have he : analyzeLayerAttributes l = [] := by
      unfold analyzeLayerAttributes layerPairs accPairs objectOrderBy
      rw [h]
      rfl
    exact ⟨by simp [mkLayerAnalysis, h], he, he⟩
  · intro h
    unfold analyzeTile objectOrderBy
    rw [h]
    rfl

/-- C8 witness: the boundary facts evaluated at a concrete empty layer
and a concrete empty tile. -/
theorem C8_empty_boundaries_witness :
    analyzeLayerAttributes emptyLayer = [] ∧ analyzeTile emptyTile = [] :=
  ⟨((C8_empty_boundaries emptyLayer emptyTile).1 rfl).2.2,
   (C8_empty_boundaries emptyLayer emptyTile).2 rfl⟩

/-- C6 (amended): `fetchTile` produces a result exactly when the network
call succeeds and the response status lies in the success range; a
rejected fetch propagates the thrown value unchanged; a non-success
status raises a plain `Error` whose message embeds the status code and
status text as text (`HTTP error: <status> <statusText>`) — not an
`HttpError` with structured fields. -/
theorem C6_fetchTile_errors (net : NetOutcome) :
    ((∃ b, fetchTile net = Except.ok b) ↔
      (∃ st stx body, net = NetOutcome.netResponse st stx body ∧ respOk st = true)) ∧
    (∀ st stx body, net = NetOutcome.netResponse st stx body → respOk st = false →
      fetchTile net =
        Except.error (JsThrown.jsError ("HTTP error: " ++ jsNatRepr st ++ " " ++ stx))) ∧
    (∀ e, net = NetOutcome.netError e → fetchTile net = Except.error e) := by
  refine ⟨?_, ?_, ?_⟩
  · cases net with
    | netError e => simp [fetchTile]
    | netResponse st stx body =>
      by_cases h : respOk st = true
      · simp [fetchTile, h]
      · simp [fetchTile, h]
  · intro st stx body hnet hbad
    subst hnet
    simp [fetchTile, hbad]
  · intro e hnet
    subst hnet
    rfl

/-- C6 witness: the amended behavior evaluated at a concrete 404
response. -/
theorem C6_fetchTile_errors_witness :
    respOk 404 = false ∧
    fetchTile resp404 =
      Except.error (JsThrown.jsError ("HTTP error: " ++ jsNatRepr 404 ++ " " ++ "Not Found")) :=
  ⟨by decide, (C6_fetchTile_errors resp404).2.1 404 "Not Found" [] rfl (by decide)⟩

/-- C6 counterexample: at a concrete 404 response the thrown value is a
plain `Error` carrying only the message string
`HTTP error: 404 Not Found`; it is not the spec's structured
`HttpError{status, statusText}`. -/
theorem C6_error_is_not_structured :
    fetchTile resp404 = Except.error (JsThrown.jsError "HTTP error: 404 Not Found") ∧
    isStructuredHttpError (fetchTile resp404) = false :=
  ⟨by decide, by decide⟩

lemma perm_insertDescBy (f : α → Nat) (x : α) (l : List α) :
    List.Perm (insertDescBy f x l) (x :: l) := by
  induction l with
  | nil => exact List.Perm.refl _
  | cons y ys ih =>
    rw [insertDescBy]
    by_cases h : f y ≤ f x
    · rw [if_pos h]
    · rw [if_neg h]
      exact (ih.cons y).trans (List.Perm.swap x y ys)

lemma perm_sortDescBy (f : α → Nat) (l : List α) : List.Perm (sortDescBy f l) l := by
  induction l with
  | nil => exact List.Perm.refl _
  | cons x xs ih =>
    exact (perm_insertDescBy f x (sortDescBy f xs)).trans (ih.cons x)

lemma pairwise_insertDescBy (f : α → Nat) (x : α) {l : List α}
    (h : l.Pairwise (fun a b => f b ≤ f a)) :
    (insertDescBy f x l).Pairwise (fun a b => f b ≤ f a) := by
  induction l with
  | nil => simp [insertDescBy]
  | cons y ys ih =>
    rcases List.pairwise_cons.mp h with ⟨hy, hys⟩
    rw [insertDescBy]
    by_cases hc : f y ≤ f x
    · rw [if_pos hc]
      refine List.pairwise_cons.mpr ⟨?_, h⟩
      intro z hz
      rcases List.mem_cons.mp hz with rfl | hz
      · exact hc
      · exact le_trans (hy z hz) hc
    · rw [if_neg hc]
      refine List.pairwise_cons.mpr ⟨?_, ih hys⟩
      intro z hz
      have hz2 := (perm_insertDescBy f x ys).mem_iff.mp hz
      rcases List.mem_cons.mp hz2 with rfl | hz2
      · omega
      · exact hy z hz2

lemma pairwise_sortDescBy (f : α → Nat) (l : List α) :
    (sortDescBy f l).Pairwise (fun a b => f b ≤ f a) := by
  induction l with
  | nil => simp [sortDescBy]
  | cons x xs ih => exact pairwise_insertDescBy f x ih

lemma filter_insertDescBy_neg (f : α → Nat) (x : α) (l : List α) (p : α → Bool)
    (hx : p x = false) :
    (insertDescBy f x l).filter p = l.filter p := by
  induction l with
  | nil => simp [insertDescBy, hx]
  | cons y ys ih =>
    rw [insertDescBy]
    by_cases hc : f y ≤ f x
    · rw [if_pos hc]
      rw [List.filter_cons, hx]
      rfl
    · rw [if_neg hc]
      rw [List.filter_cons, List.filter_cons]
      cases hpy : p y
      · simpa [hpy] using ih
      · simpa [hpy] using ih

lemma filter_insertDescBy_pos (f : α → Nat) (x : α) {l : List α}
    (hl : l.Pairwise (fun a b => f b ≤ f a)) :
    (insertDescBy f x l).filter (fun y => f y == f x) =
      x :: l.filter (fun y => f y == f x) := by
  induction l with
  | nil => simp [insertDescBy]
  | cons y ys ih =>
    rcases List.pairwise_cons.mp hl with ⟨hy, hys⟩
    rw [insertDescBy]
    by_cases hc : f y ≤ f x
    · rw [if_pos hc]
      rw [List.filter_cons]
      simp
    · rw [if_neg hc]
      have hpy : (f y == f x) = false := by
        simp only [beq_eq_false_iff_ne, ne_eq]
        omega
      rw [List.filter_cons, hpy, List.filter_cons, hpy]
      simpa using ih hys

lemma filter_sortDescBy (f : α → Nat) (l : List α) (n : Nat) :
    (sortDescBy f l).filter (fun y => f y == n) = l.filter (fun y => f y == n) := by
  induction l with
  | nil => rfl
  | cons x xs ih =>
    rw [sortDescBy]
    by_cases hx : f x = n
    · subst hx
      rw [filter_insertDescBy_pos f x (pairwise_sortDescBy f xs), ih, List.filter_cons]
      simp
    · have hpx : (f x == n) = false := by
        simp only [beq_eq_false_iff_ne, ne_eq]
        exact hx
      rw [filter_insertDescBy_neg f x _ _ hpx, ih, List.filter_cons, hpx]
      rfl

lemma perm_insertAscBy (f : α → Nat) (x : α) (l : List α) :
    List.Perm (insertAscBy f x l) (x :: l) := by
  induction l with
  | nil => exact List.Perm.refl _
  | cons y ys ih =>
    rw [insertAscBy]
    by_cases h : f x < f y
    · rw [if_pos h]
    · rw [if_neg h]
      exact (ih.cons y).trans (List.Perm.swap x y ys)

lemma perm_sortAscBy (f : α → Nat) (l : List α) : List.Perm (sortAscBy f l) l := by
  induction l with
  | nil => exact List.Perm.refl _
  | cons x xs ih =>
    exact (perm_insertAscBy f x (sortAscBy f xs)).trans (ih.cons x)

lemma perm_objectOrderBy (f : α → String) (l : List α) : List.Perm (objectOrderBy f l) l := by
  unfold objectOrderBy
  refine ((perm_sortAscBy _ _).append_right _).trans ?_
  exact List.filter_append_perm _ l

lemma objectOrderBy_eq_self (f : α → String) (l : List α)
    (h : ∀ a ∈ l, canonIndex (f a) = none) : objectOrderBy f l = l := by
  unfold objectOrderBy
  have h1 : l.filter (fun a => (canonIndex (f a)).isSome) = [] := by
    rw [List.filter_eq_nil_iff]
    intro a ha
    simp [h a ha]
  have h2 : l.filter (fun a => !(canonIndex (f a)).isSome) = l := by
    rw [List.filter_eq_self]
    intro a ha
    simp [h a ha]
  rw [h1, h2]
  rfl

lemma mem_pushNew {acc : List String} {x y : String} :
    y ∈ pushNew acc x ↔ y ∈ acc ∨ y = x := by
  unfold pushNew
  by_cases h : x ∈ acc
  · rw [if_pos h]
    constructor
    · exact Or.inl
    · rintro (hy | rfl)
      · exact hy
      · exact h
  · rw [if_neg h]
    simp

lemma pushNews_cons (acc : List String) (x : String) (l : List String) :
    pushNews acc (x :: l) = pushNews (pushNew acc x) l := rfl

lemma mem_pushNews (l : List String) : ∀ (acc : List String) (y : String),
    (y ∈ pushNews acc l ↔ y ∈ acc ∨ y ∈ l) := by
  induction l with
  | nil => intro acc y; simp [pushNews]
  | cons x xs ih =>
    intro acc y
    rw [pushNews_cons, ih, mem_pushNew]
    simp [List.mem_cons]
    tauto

lemma nodup_pushNew {acc : List String} {x : String} (h : acc.Nodup) :
    (pushNew acc x).Nodup := by
  unfold pushNew
  by_cases hx : x ∈ acc
  · rwa [if_pos hx]
  · rw [if_neg hx]
    rw [List.nodup_append]
    exact ⟨h, List.nodup_singleton x,
      fun b hb hbx => hx (by rwa [List.mem_singleton.mp hbx] at hb)⟩

lemma nodup_pushNews (l : List String) : ∀ {acc : List String},
    acc.Nodup → (pushNews acc l).Nodup := by
  induction l with
  | nil => intro acc h; exact h
  | cons x xs ih =>
    intro acc h
    rw [pushNews_cons]
    exact ih (nodup_pushNew h)

lemma pushNews_ne_nil {acc l : List String} (h : l ≠ []) : pushNews acc l ≠ [] := by
  obtain ⟨y, hy⟩ := List.exists_mem_of_ne_nil l h
  exact List.ne_nil_of_mem ((mem_pushNews l acc y).mpr (Or.inr hy))

lemma map_fst_mapIncr (m : List (String × Nat)) (s : String) :
    (mapIncr m s).map Prod.fst = pushNew (m.map Prod.fst) s := by
  induction m with
  | nil => simp [mapIncr, pushNew]
  | cons e rest ih =>
    rw [mapIncr]
    by_cases he : e.1 = s
    · rw [if_pos he]
      have hmem : s ∈ (e :: rest).map Prod.fst := by
        rw [← he]
        exact List.mem_map_of_mem Prod.fst (List.mem_cons_self e rest)
      simp only [List.map_cons]
      unfold pushNew
      rw [if_pos (by simpa using hmem)]
    · rw [if_neg he]
      simp only [List.map_cons, ih]
      unfold pushNew
      by_cases hs : s ∈ rest.map Prod.fst
      · rw [if_pos hs, if_pos (List.mem_cons_of_mem _ hs)]
      · rw [if_neg hs, if_neg (by
          intro hc
          rcases List.mem_cons.mp hc with hc | hc
          · exact he hc.symm
          · exact hs hc)]
        rfl

lemma sum_mapIncr (m : List (String × Nat)) (s : String) :
    ((mapIncr m s).map Prod.snd).sum = ((m.map Prod.snd).sum) + 1 := by
  induction m with
  | nil => rfl
  | cons e rest ih =>
    rw [mapIncr]
    by_cases he : e.1 = s
    · rw [if_pos he]
      simp only [List.map_cons, List.sum_cons]
      omega
    · rw [if_neg he]
      simp only [List.map_cons, List.sum_cons, ih]
      omega

lemma lookupCount_nil (s : String) : lookupCount [] s = 0 := rfl

lemma lookupCount_cons_eq {e : String × Nat} {rest : List (String × Nat)} {s : String}
    (h : e.1 = s) : lookupCount (e :: rest) s = e.2 := by
  unfold lookupCount
  rw [List.find?_cons_of_pos _ (by simp [h])]

lemma lookupCount_cons_ne {e : String × Nat} {rest : List (String × Nat)} {s : String}
    (h : ¬(e.1 = s)) : lookupCount (e :: rest) s = lookupCount rest s := by
  unfold lookupCount
  rw [List.find?_cons_of_neg _ (by simp [h])]

lemma lookupCount_mapIncr (m : List (String × Nat)) (s x : String) :
    lookupCount (mapIncr m s) x = lookupCount m x + (if x = s then 1 else 0) := by
  induction m with
  | nil =>
    unfold mapIncr
    by_cases hx : x = s
    · have hh : ((s, 1) : String × Nat).1 = x := hx.symm
      rw [lookupCount_cons_eq hh, lookupCount_nil, if_pos hx]
    · have hh : ¬(((s, 1) : String × Nat).1 = x) := Ne.symm hx
      rw [lookupCount_cons_ne hh]
      simp [hx]
  | cons e rest ih =>
    rw [mapIncr]
    by_cases he : e.1 = s
    · rw [if_pos he]
      by_cases hx : e.1 = x
      · have hh : ((e.1, e.2 + 1) : String × Nat).1 = x := hx
        rw [lookupCount_cons_eq hh, lookupCount_cons_eq hx]
        have hxs : x = s := by rw [← hx, he]
        rw [if_pos hxs]
      · have hh : ¬(((e.1, e.2 + 1) : String × Nat).1 = x) := hx
        rw [lookupCount_cons_ne hh, lookupCount_cons_ne hx]
        have hxs : ¬(x = s) := by
          intro hc
          exact hx (by rw [he, hc])
        rw [if_neg hxs]
        simp
    · rw [if_neg he]
      by_cases hx : e.1 = x
      · have hxs : ¬(x = s) := by
          intro hc
          exact he (by rw [hx, hc])
        rw [lookupCount_cons_eq hx, lookupCount_cons_eq hx, if_neg hxs]
        simp
      · rw [lookupCount_cons_ne hx, lookupCount_cons_ne hx]
        exact ih

lemma map_fst_foldl_mapIncr (l : List String) : ∀ (m : List (String × Nat)),
    ((l.foldl mapIncr m).map Prod.fst) = pushNews (m.map Prod.fst) l := by
  induction l with
  | nil => intro m; rfl
  | cons s rest ih =>
    intro m
    show ((rest.foldl mapIncr (mapIncr m s)).map Prod.fst) = _
    rw [ih, map_fst_mapIncr, pushNews_cons]

lemma map_fst_histOf (l : List String) : (histOf l).map Prod.fst = pushNews [] l :=
  map_fst_foldl_mapIncr l []

lemma sum_foldl_mapIncr (l : List String) : ∀ (m : List (String × Nat)),
    (((l.foldl mapIncr m).map Prod.snd).sum) = ((m.map Prod.snd).sum) + l.length := by
  induction l with
  | nil => intro m; rfl
  | cons s rest ih =>
    intro m
    show (((rest.foldl mapIncr (mapIncr m s)).map Prod.snd).sum) = _
    rw [ih, sum_mapIncr, List.length_cons]
    omega

lemma sum_histOf (l : List String) : ((histOf l).map Prod.snd).sum = l.length := by
  have h := sum_foldl_mapIncr l []
  simpa using h

lemma lookupCount_foldl_mapIncr (l : List String) : ∀ (m : List (String × Nat)) (s : String),
    lookupCount (l.foldl mapIncr m) s = lookupCount m s + strCountOf l s := by
  induction l with
  | nil => intro m s; simp [strCountOf]
  | cons x xs ih =>
    intro m s
    show lookupCount (xs.foldl mapIncr (mapIncr m x)) s = _
    rw [ih, lookupCount_mapIncr]
    unfold strCountOf
    rw [List.countP_cons]
    by_cases h : s = x
    · subst h
      simp
      omega
    · have hb : (x == s) = false := by
        simp only [beq_eq_false_iff_ne, ne_eq]
        exact Ne.symm h
      rw [if_neg h, hb]
      simp

lemma lookupCount_histOf (l : List String) (s : String) :
    lookupCount (histOf l) s = strCountOf l s := by
  have h := lookupCount_foldl_mapIncr l [] s
  rw [lookupCount_nil] at h
  simpa using h

lemma lookupCount_of_mem {m : List (String × Nat)} (hnd : (m.map Prod.fst).Nodup)
    {e : String × Nat} (he : e ∈ m) : lookupCount m e.1 = e.2 := by
  induction m with
  | nil => cases he
  | cons a rest ih =>
    rw [List.map_cons] at hnd
    rcases List.nodup_cons.mp hnd with ⟨hna, hnrest⟩
    rcases List.mem_cons.mp he with rfl | he2
    · exact lookupCount_cons_eq rfl
    · have hne : ¬(a.1 = e.1) := by
        intro hcontr
        exact hna (hcontr ▸ List.mem_map_of_mem Prod.fst he2)
      rw [lookupCount_cons_ne hne]
      exact ih hnrest he2

lemma keyStrsOf_cons_pos {p : String × Value} {k : String} (h : p.1 = k)
    (rest : List (String × Value)) :
    keyStrsOf (p :: rest) k = jsString p.2 :: keyStrsOf rest k := by
  simp [keyStrsOf, List.filterMap_cons, h]

lemma keyStrsOf_cons_neg {p : String × Value} {k : String} (h : ¬(p.1 = k))
    (rest : List (String × Value)) :
    keyStrsOf (p :: rest) k = keyStrsOf rest k := by
  simp [keyStrsOf, List.filterMap_cons, h]

lemma keyTypesOf_cons_pos {p : String × Value} {k : String} (h : p.1 = k)
    (rest : List (String × Value)) :
    keyTypesOf (p :: rest) k = getValueType p.2 :: keyTypesOf rest k := by
  simp [keyTypesOf, List.filterMap_cons, h]

lemma keyTypesOf_cons_neg {p : String × Value} {k : String} (h : ¬(p.1 = k))
    (rest : List (String × Value)) :
    keyTypesOf (p :: rest) k = keyTypesOf rest k := by
  simp [keyTypesOf, List.filterMap_cons, h]

lemma keyStrsOf_nil_eq (k : String) : keyStrsOf [] k = [] := rfl

lemma keyTypesOf_nil_eq (k : String) : keyTypesOf [] k = [] := rfl

lemma keyStrsOf_append (ps qs : List (String × Value)) (k : String) :
    keyStrsOf (ps ++ qs) k = keyStrsOf ps k ++ keyStrsOf qs k := by
  unfold keyStrsOf
  rw [List.filterMap_append]

lemma keyTypesOf_append (ps qs : List (String × Value)) (k : String) :
    keyTypesOf (ps ++ qs) k = keyTypesOf ps k ++ keyTypesOf qs k := by
  unfold keyTypesOf
  rw [List.filterMap_append]

lemma keyOccOf_cons_pos {p : String × Value} {k : String} (h : p.1 = k)
    (rest : List (String × Value)) :
    keyOccOf (p :: rest) k = keyOccOf rest k + 1 := by
  unfold keyOccOf
  rw [List.countP_cons]
  simp [h]

lemma keyOccOf_cons_neg {p : String × Value} {k : String} (h : ¬(p.1 = k))
    (rest : List (String × Value)) :
    keyOccOf (p :: rest) k = keyOccOf rest k := by
  unfold keyOccOf
  rw [List.countP_cons]
  simp [h]

lemma keyOccOf_append (ps qs : List (String × Value)) (k : String) :
    keyOccOf (ps ++ qs) k = keyOccOf ps k + keyOccOf qs k := by
  unfold keyOccOf
  rw [List.countP_append]

lemma keyOccOf_eq_zero {ps : List (String × Value)} {k : String}
    (h : ∀ p ∈ ps, ¬(p.1 = k)) : keyOccOf ps k = 0 := by
  unfold keyOccOf
  rw [List.countP_eq_zero]
  intro p hp
  simp [h p hp]

lemma length_keyStrsOf (ps : List (String × Value)) (k : String) :
    (keyStrsOf ps k).length = keyOccOf ps k := by
  induction ps with
  | nil => rfl
  | cons p rest ih =>
    by_cases h : p.1 = k
    · rw [keyStrsOf_cons_pos h, keyOccOf_cons_pos h, List.length_cons, ih]
    · rw [keyStrsOf_cons_neg h, keyOccOf_cons_neg h, ih]

lemma length_keyTypesOf (ps : List (String × Value)) (k : String) :
    (keyTypesOf ps k).length = keyOccOf ps k := by
  induction ps with
  | nil => rfl
  | cons p rest ih =>
    by_cases h : p.1 = k
    · rw [keyTypesOf_cons_pos h, keyOccOf_cons_pos h, List.length_cons, ih]
    · rw [keyTypesOf_cons_neg h, keyOccOf_cons_neg h, ih]

lemma keyTypesOf_eq_nil_iff (ps : List (String × Value)) (k : String) :
    keyTypesOf ps k = [] ↔ keyStrsOf ps k = [] := by
  rw [← List.length_eq_zero, ← List.length_eq_zero, length_keyTypesOf, length_keyStrsOf]

lemma strCountOf_cons (x : String) (l : List String) (s : String) :
    strCountOf (x :: l) s = strCountOf l s + (if x = s then 1 else 0) := by
  unfold strCountOf
  rw [List.countP_cons]
  by_cases h : x = s <;> simp [h]

lemma strCountOf_keyStrsOf (ps : List (String × Value)) (k s : String) :
    strCountOf (keyStrsOf ps k) s =
      ps.countP (fun p => p.1 == k && jsString p.2 == s) := by
  induction ps with
  | nil => rfl
  | cons p rest ih =>
    by_cases h : p.1 = k
    · rw [keyStrsOf_cons_pos h, strCountOf_cons, ih, List.countP_cons]
      by_cases hs : jsString p.2 = s <;> simp [h, hs]
    · rw [keyStrsOf_cons_neg h, ih, List.countP_cons]
      simp [h]

lemma histOf_append_singleton (l : List String) (s : String) :
    histOf (l ++ [s]) = mapIncr (histOf l) s := by
  unfold histOf
  rw [List.foldl_append]
  rfl

lemma pushNews_append (init l1 l2 : List String) :
    pushNews init (l1 ++ l2) = pushNews (pushNews init l1) l2 := by
  unfold pushNews
  rw [List.foldl_append]

lemma map_key_addProp (acc : List AttrAcc) (k : String) (v : Value) :
    (addProp acc k v).map (fun a => a.key) = pushNew (acc.map (fun a => a.key)) k := by
  induction acc with
  | nil => simp [addProp, pushNew]
  | cons a rest ih =>
    simp only [addProp]
    by_cases h : a.key = k
    · rw [if_pos h]
      simp only [List.map_cons]
      unfold pushNew
      rw [if_pos (by
        rw [← h]
        exact List.mem_cons_self a.key (rest.map (fun a => a.key)))]
    · rw [if_neg h]
      simp only [List.map_cons, ih]
      unfold pushNew
      by_cases hs : k ∈ rest.map (fun a => a.key)
      · rw [if_pos hs, if_pos (List.mem_cons_of_mem _ hs)]
      · rw [if_neg hs, if_neg (by
          intro hc
          rcases List.mem_cons.mp hc with hc | hc
          · exact h hc.symm
          · exact hs hc)]
        rfl

lemma map_key_foldl_addProp (ps : List (String × Value)) : ∀ (acc : List AttrAcc),
    ((ps.foldl (fun acc p => addProp acc p.1 p.2) acc).map (fun a => a.key)) =
      pushNews (acc.map (fun a => a.key)) (ps.map (fun p => p.1)) := by
  induction ps with
  | nil => intro acc; rfl
  | cons p rest ih =>
    intro acc
    rw [List.foldl_cons, ih, map_key_addProp, List.map_cons, pushNews_cons]

lemma map_key_accPairs (ps : List (String × Value)) :
    (accPairs ps).map (fun a => a.key) = pushNews [] (ps.map (fun p => p.1)) :=
  map_key_foldl_addProp ps []

lemma nodup_keys_accPairs (ps : List (String × Value)) :
    ((accPairs ps).map (fun a => a.key)).Nodup := by
  rw [map_key_accPairs]
  exact nodup_pushNews _ List.nodup_nil

lemma lookupAcc_nil (k : String) : lookupAcc [] k = none := rfl

lemma lookupAcc_cons_eq {a : AttrAcc} {rest : List AttrAcc} {k : String}
    (h : a.key = k) : lookupAcc (a :: rest) k = some a := by
  unfold lookupAcc
  rw [List.find?_cons_of_pos _ (by simp [h])]

lemma lookupAcc_cons_ne {a : AttrAcc} {rest : List AttrAcc} {k : String}
    (h : ¬(a.key = k)) : lookupAcc (a :: rest) k = lookupAcc rest k := by
  unfold lookupAcc
  rw [List.find?_cons_of_neg _ (by simp [h])]

lemma lookupAcc_addProp_ne (acc : List AttrAcc) {k q : String} (v : Value)
    (h : ¬(q = k)) :
    lookupAcc (addProp acc k v) q = lookupAcc acc q := by
  induction acc with
  | nil =>
    simp only [addProp]
    have hh : ¬((⟨k, [getValueType v], 1, [(jsString v, 1)]⟩ : AttrAcc).key = q) :=
      fun hc => h hc.symm
    rw [lookupAcc_cons_ne hh]
  | cons a rest ih =>
    simp only [addProp]
    by_cases ha : a.key = k
    · rw [if_pos ha]
      have h2 : ¬(a.key = q) := by
        rw [ha]
        exact fun hc => h hc.symm
      have h1 : ¬((⟨a.key, pushNew a.types (getValueType v), a.count + 1,
          mapIncr a.values (jsString v)⟩ : AttrAcc).key = q) := h2
      rw [lookupAcc_cons_ne h1, lookupAcc_cons_ne h2]
    · rw [if_neg ha]
      by_cases haq : a.key = q
      · rw [lookupAcc_cons_eq haq, lookupAcc_cons_eq haq]
      · rw [lookupAcc_cons_ne haq, lookupAcc_cons_ne haq]
        exact ih

lemma lookupAcc_addProp_eq (acc : List AttrAcc) (k : String) (v : Value) :
    lookupAcc (addProp acc k v) k =
      some (match lookupAcc acc k with
        | none => ⟨k, [getValueType v], 1, [(jsString v, 1)]⟩
        | some b => ⟨k, pushNew b.types (getValueType v), b.count + 1,
            mapIncr b.values (jsString v)⟩) := by
  induction acc with
  | nil =>
    simp only [addProp]
    rw [lookupAcc_cons_eq rfl, lookupAcc_nil]
  | cons a rest ih =>
    simp only [addProp]
    by_cases ha : a.key = k
    · rw [if_pos ha]
      have h1 : (⟨a.key, pushNew a.types (getValueType v), a.count + 1,
          mapIncr a.values (jsString v)⟩ : AttrAcc).key = k := ha
      rw [lookupAcc_cons_eq h1, lookupAcc_cons_eq ha, ha]
    · rw [if_neg ha]
      rw [lookupAcc_cons_ne ha, lookupAcc_cons_ne ha]
      exact ih

lemma lookupAcc_accPairs (ps : List (String × Value)) (k : String) :
    lookupAcc (accPairs ps) k =
      if keyStrsOf ps k = [] then none else some (mkEntry ps k) := by
  induction ps using List.reverseRecOn generalizing k with
  | nil => exact (if_pos rfl).symm
  | append_singleton ps p ih =>
    have hsnoc : accPairs (ps ++ [p]) = addProp (accPairs ps) p.1 p.2 := by
      unfold accPairs
      rw [List.foldl_append]
      rfl
    rw [hsnoc]
    by_cases hk : k = p.1
    · subst hk
      rw [lookupAcc_addProp_eq, ih]
      have hstrs : keyStrsOf (ps ++ [p]) p.1 = keyStrsOf ps p.1 ++ [jsString p.2] := by
        rw [keyStrsOf_append, keyStrsOf_cons_pos rfl, keyStrsOf_nil_eq]
      have htypes : keyTypesOf (ps ++ [p]) p.1 = keyTypesOf ps p.1 ++ [getValueType p.2] := by
        rw [keyTypesOf_append, keyTypesOf_cons_pos rfl, keyTypesOf_nil_eq]
      by_cases hempty : keyStrsOf ps p.1 = []
      · rw [if_pos hempty]
        rw [if_neg (by rw [hstrs, hempty]; simp)]
        have htempty : keyTypesOf ps p.1 = [] := (keyTypesOf_eq_nil_iff ps p.1).mpr hempty
        unfold mkEntry
        rw [hstrs, htypes, hempty, htempty]
        rfl
      · rw [if_neg hempty]
        rw [if_neg (by rw [hstrs]; simp)]
        unfold mkEntry
        rw [hstrs, htypes, pushNews_append, List.length_append, histOf_append_singleton]
        rfl
    · rw [lookupAcc_addProp_ne _ _ hk, ih]
      have hstrs : keyStrsOf (ps ++ [p]) k = keyStrsOf ps k := by
        rw [keyStrsOf_append, keyStrsOf_cons_neg (fun hc => hk hc.symm), keyStrsOf_nil_eq,
          List.append_nil]
      have htypes : keyTypesOf (ps ++ [p]) k = keyTypesOf ps k := by
        rw [keyTypesOf_append, keyTypesOf_cons_neg (fun hc => hk hc.symm), keyTypesOf_nil_eq,
          List.append_nil]
      simp only [mkEntry, hstrs, htypes]

lemma lookupAcc_of_mem {acc : List AttrAcc} (hnd : (acc.map (fun a => a.key)).Nodup)
    {a : AttrAcc} (ha : a ∈ acc) : lookupAcc acc a.key = some a := by
  induction acc with
  | nil => cases ha
  | cons b rest ih =>
    rw [List.map_cons] at hnd
    rcases List.nodup_cons.mp hnd with ⟨hnb, hnrest⟩
    rcases List.mem_cons.mp ha with rfl | ha2
    · exact lookupAcc_cons_eq rfl
    · have hne : ¬(b.key = a.key) := by
        intro hcontr
        exact hnb (hcontr ▸ List.mem_map_of_mem (fun a => a.key) ha2)
      rw [lookupAcc_cons_ne hne]
      exact ih hnrest ha2

lemma mem_accPairs_exists {ps : List (String × Value)} {a : AttrAcc}
    (ha : a ∈ accPairs ps) :
    ∃ k, a = mkEntry ps k ∧ ¬(keyStrsOf ps k = []) := by
  have hl := lookupAcc_of_mem (nodup_keys_accPairs ps) ha
  rw [lookupAcc_accPairs] at hl
  by_cases h : keyStrsOf ps a.key = []
  · rw [if_pos h] at hl
    cases hl
  · rw [if_neg h] at hl
    exact ⟨a.key, (Option.some.inj hl).symm, h⟩

lemma mem_analyzeLayerAttributes {layer : Layer} {attr : AttributeStat}
    (h : attr ∈ analyzeLayerAttributes layer) :
    ∃ k, attr = finalizeAcc (mkEntry (layerPairs layer) k) ∧
      ¬(keyStrsOf (layerPairs layer) k = []) := by
  unfold analyzeLayerAttributes at h
  have h1 := (perm_sortDescBy _ _).mem_iff.mp h
  rcases List.mem_map.mp h1 with ⟨a, ha, hfa⟩
  have ha2 := (perm_objectOrderBy _ _).mem_iff.mp ha
  rcases mem_accPairs_exists ha2 with ⟨k, hk, hne⟩
  exact ⟨k, by rw [← hfa, hk], hne⟩

lemma keyOccOf_of_nodup {props : List (String × Value)}
    (hnd : (props.map (fun p => p.1)).Nodup) (k : String) :
    keyOccOf props k = if props.any (fun p => p.1 == k) then 1 else 0 := by
  induction props with
  | nil => rfl
  | cons p rest ih =>
    rw [List.map_cons] at hnd
    rcases List.nodup_cons.mp hnd with ⟨hp, hrest⟩
    rw [List.any_cons]
    by_cases h : p.1 = k
    · rw [keyOccOf_cons_pos h]
      have h0 : keyOccOf rest k = 0 := by
        apply keyOccOf_eq_zero
        intro q hq hqk
        apply hp
        have hmem : q.1 ∈ rest.map (fun p => p.1) :=
          List.mem_map_of_mem (fun p => p.1) hq
        rw [hqk, ← h] at hmem
        exact hmem
      rw [h0]
      have hb : (p.1 == k) = true := by simp [h]
      rw [hb]
      rfl
    · rw [keyOccOf_cons_neg h, ih hrest]
      have hb : (p.1 == k) = false := by simp [h]
      rw [hb]
      rfl

lemma keyOcc_flatMap (fs : List Feature) (k : String)
    (h : ∀ f ∈ fs, (f.props.map (fun p => p.1)).Nodup) :
    keyOccOf (fs.flatMap featEntries) k =
      fs.countP (fun f => f.props.any (fun p => p.1 == k)) := by
  induction fs with
  | nil => rfl
  | cons f rest ih =>
    rw [List.flatMap_cons, keyOccOf_append]
    have h1 : keyOccOf (featEntries f) k = keyOccOf f.props k := by
      unfold keyOccOf
      exact (perm_objectOrderBy Prod.fst f.props).countP_eq _
    rw [h1, keyOccOf_of_nodup (h f (List.mem_cons_self f rest)) k]
    rw [ih (fun g hg => h g (List.mem_cons_of_mem f hg))]
    rw [List.countP_cons]
    by_cases hany : f.props.any (fun p => p.1 == k) = true
    · rw [if_pos hany]
      omega
    · rw [if_neg hany]
      omega


lemma finalizeAcc_count (a : AttrAcc) : (finalizeAcc a).count = a.count := rfl

lemma finalizeAcc_key (a : AttrAcc) : (finalizeAcc a).key = a.key := rfl

lemma filter_count_map_finalize (acc : List AttrAcc) (n : Nat) :
    ((acc.map finalizeAcc).filter (fun a => a.count == n)) =
      (acc.filter (fun a => a.count == n)).map finalizeAcc := by
  induction acc with
  | nil => rfl
  | cons a rest ih =>
    by_cases hb : (a.count == n) = true <;>
      simp [List.filter_cons, finalizeAcc_count, hb, ih]

lemma map_key_filter_keyOcc (acc : List AttrAcc) (layer : Layer) (n : Nat) :
    ((acc.filter (fun a => keyOccurrences layer a.key == n)).map (fun a => a.key)) =
      (acc.map (fun a => a.key)).filter (fun k => keyOccurrences layer k == n) := by
  induction acc with
  | nil => rfl
  | cons a rest ih =>
    by_cases hb : (keyOccurrences layer a.key == n) = true <;>
      simp [List.filter_cons, hb, ih]

lemma filter_count_map_toEntry (m : List (String × Nat)) (n : Nat) :
    ((m.map (fun e => (⟨e.1, e.2⟩ : HistEntry))).filter (fun e => e.count == n)) =
      (m.filter (fun e => e.2 == n)).map (fun e => (⟨e.1, e.2⟩ : HistEntry)) := by
  induction m with
  | nil => rfl
  | cons a rest ih =>
    by_cases hb : (a.2 == n) = true <;>
      simp [List.filter_cons, hb, ih]

lemma map_fst_filter_strCount (m : List (String × Nat)) (strs : List String) (n : Nat) :
    ((m.filter (fun e => strCountOf strs e.1 == n)).map Prod.fst) =
      (m.map Prod.fst).filter (fun s => strCountOf strs s == n) := by
  induction m with
  | nil => rfl
  | cons a rest ih =>
    by_cases hb : (strCountOf strs a.1 == n) = true <;>
      simp [List.filter_cons, hb, ih]

/-- C1: for every well-formed decoded layer (feature property keys are
unique, as JavaScript objects guarantee) and every attribute record
produced by `analyzeLayerAttributes`, the histogram counts sum to the
attribute's total count, the total count equals the number of features
whose property mapping contains the key, and the set of observed type
tags is non-empty. -/
theorem C1_attribute_invariants (layer : Layer) (hw : WFLayer layer) :
    ∀ attr ∈ analyzeLayerAttributes layer,
      ((attr.values.map (fun e => e.count)).sum = attr.count) ∧
      (attr.count = layer.features.countP
        (fun f => f.props.any (fun p => p.1 == attr.key))) ∧
      ¬(attr.types = []) := by
  intro attr hmem
  rcases mem_analyzeLayerAttributes hmem with ⟨k, rfl, hne⟩
  refine ⟨?_, ?_, ?_⟩
  · show ((List.map (fun e => e.count)
        ((sortDescBy (fun e : String × Nat => e.2)
          (histOf (keyStrsOf (layerPairs layer) k))).map
            (fun e => (⟨e.1, e.2⟩ : HistEntry)))).sum) =
      (keyStrsOf (layerPairs layer) k).length
    rw [List.map_map]
    show ((List.map (fun e : String × Nat => e.2)
        (sortDescBy (fun e : String × Nat => e.2)
          (histOf (keyStrsOf (layerPairs layer) k)))).sum) = _
    rw [((perm_sortDescBy (fun e : String × Nat => e.2)
      (histOf (keyStrsOf (layerPairs layer) k))).map (fun e => e.2)).sum_eq]
    exact sum_histOf _
  · show (keyStrsOf (layerPairs layer) k).length = _
    rw [length_keyStrsOf]
    exact keyOcc_flatMap layer.features k hw
  · show ¬(pushNews [] (keyTypesOf (layerPairs layer) k) = [])
    exact pushNews_ne_nil (fun hc => hne ((keyTypesOf_eq_nil_iff _ _).mp hc))

/-- C1 witness: the invariants evaluated on the spec's `roads` example
(three features with `type` = `"primary"`, `"primary"`, `"secondary"`). -/
theorem C1_attribute_invariants_witness :
    WFLayer roadsLayer ∧ roadsStat ∈ analyzeLayerAttributes roadsLayer ∧
    ((roadsStat.values.map (fun e => e.count)).sum = roadsStat.count ∧
      (roadsStat.count = roadsLayer.features.countP
        (fun f => f.props.any (fun p => p.1 == roadsStat.key))) ∧
      ¬(roadsStat.types = [])) :=
  ⟨by decide, by decide,
    C1_attribute_invariants roadsLayer (by decide) roadsStat (by decide)⟩

/-- C7: property values that stringify identically share one histogram
bucket: bucket value strings are pairwise distinct, each bucket's count
is the number of (key, value) observations whose `String(value)` equals
the bucket's string, every observation of the key has a bucket, and the
type tag of every observed value is in the attribute's type set. -/
theorem C7_stringify_merges_buckets (layer : Layer) :
    ∀ attr ∈ analyzeLayerAttributes layer,
      ((attr.values.map (fun e => e.value)).Nodup) ∧
      (∀ e ∈ attr.values,
        e.count = (layerPairs layer).countP
          (fun p => p.1 == attr.key && jsString p.2 == e.value) ∧ 0 < e.count) ∧
      (∀ p ∈ layerPairs layer, p.1 = attr.key →
        jsString p.2 ∈ attr.values.map (fun e => e.value) ∧
        getValueType p.2 ∈ attr.types) := by
  intro attr hmem
  rcases mem_analyzeLayerAttributes hmem with ⟨k, rfl, hne⟩
  have hvals : ((finalizeAcc (mkEntry (layerPairs layer) k)).values.map
        (fun e => e.value)) =
      (sortDescBy (fun e : String × Nat => e.2)
        (histOf (keyStrsOf (layerPairs layer) k))).map Prod.fst := by
    show ((sortDescBy (fun e : String × Nat => e.2)
        (histOf (keyStrsOf (layerPairs layer) k))).map
          (fun e => (⟨e.1, e.2⟩ : HistEntry))).map (fun e => e.value) = _
    rw [List.map_map]
    rfl
  have hndh : ((histOf (keyStrsOf (layerPairs layer) k)).map Prod.fst).Nodup := by
    rw [map_fst_histOf]
    exact nodup_pushNews _ List.nodup_nil
  refine ⟨?_, ?_, ?_⟩
  · rw [hvals]
    exact (((perm_sortDescBy _ _).map Prod.fst).nodup_iff).mpr hndh
  · intro e he
    have he2 : e ∈ (sortDescBy (fun e : String × Nat => e.2)
        (histOf (keyStrsOf (layerPairs layer) k))).map
          (fun pr => (⟨pr.1, pr.2⟩ : HistEntry)) := he
    rcases List.mem_map.mp he2 with ⟨pr, hpr, hpre⟩
    have hprh : pr ∈ histOf (keyStrsOf (layerPairs layer) k) :=
      (perm_sortDescBy _ _).mem_iff.mp hpr
    have hcount : lookupCount (histOf (keyStrsOf (layerPairs layer) k)) pr.1 = pr.2 :=
      lookupCount_of_mem hndh hprh
    rw [lookupCount_histOf] at hcount
    have hc2 : e.count = pr.2 := by rw [← hpre]
    have hv2 : e.value = pr.1 := by rw [← hpre]
    constructor
    · rw [hc2, ← hcount, hv2, strCountOf_keyStrsOf]
      rfl
    · rw [hc2, ← hcount]
      have hmem1 : pr.1 ∈ (histOf (keyStrsOf (layerPairs layer) k)).map Prod.fst :=
        List.mem_map_of_mem Prod.fst hprh
      rw [map_fst_histOf] at hmem1
      have hmem2 : pr.1 ∈ keyStrsOf (layerPairs layer) k :=
        ((mem_pushNews _ _ _).mp hmem1).resolve_left (List.not_mem_nil pr.1)
      unfold strCountOf
      rw [List.countP_pos_iff]
      exact ⟨pr.1, hmem2, by simp⟩
  · intro p hp hpk
    constructor
    · rw [hvals]
      refine ((perm_sortDescBy _ _).map Prod.fst).mem_iff.mpr ?_
      rw [map_fst_histOf]
      refine (mem_pushNews _ _ _).mpr (Or.inr ?_)
      unfold keyStrsOf
      have hpk2 : p.1 = k := hpk
      exact List.mem_filterMap.mpr ⟨p, hp, by rw [if_pos hpk2]⟩
    · show getValueType p.2 ∈ pushNews [] (keyTypesOf (layerPairs layer) k)
      refine (mem_pushNews _ _ _).mpr (Or.inr ?_)
      unfold keyTypesOf
      have hpk2 : p.1 = k := hpk
      exact List.mem_filterMap.mpr ⟨p, hp, by rw [if_pos hpk2]⟩

/-- C7 witness: boolean `true` and string `"true"` merge into the single
bucket `"true"` with count 2; both type tags are recorded. -/
theorem C7_stringify_merges_buckets_witness :
    mergeStat ∈ analyzeLayerAttributes mergeLayer ∧
    (mergeStat.values.map (fun e => e.value)).Nodup :=
  ⟨by decide, (C7_stringify_merges_buckets mergeLayer mergeStat (by decide)).1⟩

/-- C2 (amended): the attribute list is sorted by total count descending
and — provided no attribute key is a JavaScript array-index string — the
keys tied at any count appear exactly in first-observed order; within
every attribute the histogram entries are sorted by count descending
with ties in first-observed order of the value strings, unconditionally.
Array-index-like keys are excluded because `Object.values` enumerates
them before all other keys, in numeric order, not in insertion order.
All orders are functions of the decoded layer, hence identical on every
run. -/
theorem C2_sorting_and_stability (layer : Layer) :
    ((analyzeLayerAttributes layer).Pairwise (fun a b => b.count ≤ a.count)) ∧
    ((∀ k ∈ firstObservedKeys layer, canonIndex k = none) →
      ∀ n, ((analyzeLayerAttributes layer).filter
          (fun a => a.count == n)).map (fun a => a.key) =
        (firstObservedKeys layer).filter (fun k => keyOccurrences layer k == n)) ∧
    (∀ attr ∈ analyzeLayerAttributes layer,
      (attr.values.Pairwise (fun x y => y.count ≤ x.count)) ∧
      ∀ n, ((attr.values.filter (fun e => e.count == n)).map (fun e => e.value)) =
        (firstObservedStrs layer attr.key).filter
          (fun s => strOccurrences layer attr.key s == n)) := by
  refine ⟨?_, ?_, ?_⟩
  · unfold analyzeLayerAttributes
    exact pairwise_sortDescBy (fun a : AttributeStat => a.count) _
  · intro hidx n
    have hkeys : (accPairs (layerPairs layer)).map (fun a => a.key) =
        firstObservedKeys layer := map_key_accPairs _
    have hnoidx : ∀ a ∈ accPairs (layerPairs layer), canonIndex a.key = none := by
      intro a ha
      exact hidx a.key (hkeys ▸ List.mem_map_of_mem (fun a : AttrAcc => a.key) ha)
    have hobj : objectOrderBy (fun a => a.key) (accPairs (layerPairs layer)) =
        accPairs (layerPairs layer) := objectOrderBy_eq_self _ _ hnoidx
    unfold analyzeLayerAttributes
    rw [hobj]
    rw [filter_sortDescBy (fun a : AttributeStat => a.count)
      ((accPairs (layerPairs layer)).map finalizeAcc) n]
    rw [filter_count_map_finalize]
    rw [List.map_map]
    show ((accPairs (layerPairs layer)).filter
        (fun a => a.count == n)).map (fun a => a.key) = _
    have hpred : ((accPairs (layerPairs layer)).filter (fun a => a.count == n)) =
        ((accPairs (layerPairs layer)).filter
          (fun a => keyOccurrences layer a.key == n)) := by
      apply List.filter_congr
      intro a ha
      rcases mem_accPairs_exists ha with ⟨k, rfl, hne2⟩
      show (((keyStrsOf (layerPairs layer) k).length : Nat) == n) = _
      rw [length_keyStrsOf]
      rfl
    rw [hpred, map_key_filter_keyOcc, map_key_accPairs]
    rfl
  · intro attr hmem
    rcases mem_analyzeLayerAttributes hmem with ⟨k, rfl, hne⟩
    constructor
    · show ((sortDescBy (fun e : String × Nat => e.2)
          (histOf (keyStrsOf (layerPairs layer) k))).map
            (fun e => (⟨e.1, e.2⟩ : HistEntry))).Pairwise
          (fun x y => y.count ≤ x.count)
      refine List.Pairwise.map _ ?_
        (pairwise_sortDescBy (fun e : String × Nat => e.2) _)
      intro a b h
      exact h
    · intro n
      show (((sortDescBy (fun e : String × Nat => e.2)
          (histOf (keyStrsOf (layerPairs layer) k))).map
            (fun e => (⟨e.1, e.2⟩ : HistEntry))).filter
              (fun e => e.count == n)).map (fun e => e.value) = _
      rw [filter_count_map_toEntry, List.map_map]
      show ((sortDescBy (fun e : String × Nat => e.2)
          (histOf (keyStrsOf (layerPairs layer) k))).filter
            (fun e => e.2 == n)).map Prod.fst = _
      rw [filter_sortDescBy (fun e : String × Nat => e.2)
        (histOf (keyStrsOf (layerPairs layer) k)) n]
      have hndh : ((histOf (keyStrsOf (layerPairs layer) k)).map Prod.fst).Nodup := by
        rw [map_fst_histOf]
        exact nodup_pushNews _ List.nodup_nil
      have hpred : ((histOf (keyStrsOf (layerPairs layer) k)).filter
          (fun e => e.2 == n)) =
          ((histOf (keyStrsOf (layerPairs layer) k)).filter
            (fun e => strCountOf (keyStrsOf (layerPairs layer) k) e.1 == n)) := by
        apply List.filter_congr
        intro e hee
        have hcount := lookupCount_of_mem hndh hee
        rw [lookupCount_histOf] at hcount
        rw [hcount]
      rw [hpred, map_fst_filter_strCount, map_fst_histOf]
      rfl

/-- C2 witness: the amended ordering facts evaluated on the `roads`
example, whose keys are not array-index strings. -/
theorem C2_sorting_and_stability_witness :
    (∀ k ∈ firstObservedKeys roadsLayer, canonIndex k = none) ∧
    ((analyzeLayerAttributes roadsLayer).filter
        (fun a => a.count == 3)).map (fun a => a.key) =
      (firstObservedKeys roadsLayer).filter
        (fun k => keyOccurrences roadsLayer k == 3) :=
  ⟨by decide, (C2_sorting_and_stability roadsLayer).2.1 (by decide) 3⟩

/-- C2 counterexample: in a layer whose first feature carries key `"b"`
and whose second feature carries the array-index-like key `"1"`, both
keys tie at total count 1, yet the output order is `["1", "b"]` while
the first-observed order is `["b", "1"]`: JavaScript objects enumerate
array-index keys before insertion-ordered string keys, so the tie is not
broken by first observation. -/
theorem C2_index_key_breaks_stability :
    (analyzeLayerAttributes idxKeyLayer).map (fun a => a.key) = ["1", "b"] ∧
    (analyzeLayerAttributes idxKeyLayer).map (fun a => a.count) = [1, 1] ∧
    firstObservedKeys idxKeyLayer = ["b", "1"] :=
  ⟨by decide, by decide, by decide⟩


end Mvtal
